import Mathlib

/-!
Verification development for the HTML to DOCX converter (src/app.py).

The post-processing pipeline of `build_docx` is shallowly embedded:
documents are in-memory trees of body paragraphs, tables, and sections
with footers; paragraphs contain runs; runs carry bold and italic flags
(tri-state, as in python-docx), an optional character style name, an
optional language attribute, and text. Style assignment (`p.style = nm`)
succeeds exactly when the style name is defined in the document, and is
a no-op otherwise (the source catches KeyError / Exception and skips).
-/

/-! ### Python string helpers -/

/-- ASCII whitespace characters recognised by Python str.strip / str.isspace. -/
def pyIsSpace (c : Char) : Bool :=
  c == ' ' || c == '\t' || c == '\n' || c == '\r' || c == '\x0b' || c == '\x0c'

/-- Embedding of Python str.strip() (restricted to ASCII whitespace). -/
def pyStrip (s : String) : String :=
  ⟨((s.data.dropWhile pyIsSpace).reverse.dropWhile pyIsSpace).reverse⟩

/-- Kernel-friendly list prefix test. -/
def listIsPre : List Char → List Char → Bool
  | [], _ => true
  | _ :: _, [] => false
  | c :: cs, d :: ds => c == d && listIsPre cs ds

/-- Embedding of Python str.startswith. -/
def strStartsWith (s pre : String) : Bool :=
  listIsPre pre.data s.data

/-- Parse a maximal digit run into a number. -/
def digitsToNat (ds : List Char) : Nat :=
  ds.foldl (fun a c => a * 10 + (c.toNat - 48)) 0

/-- Find the first embedded integer in a character list, as the regex
search for one or more digits does in the source. -/
def firstIntAux : List Char → Option Nat
  | [] => none
  | c :: cs =>
    if c.isDigit then some (digitsToNat (c :: cs.takeWhile Char.isDigit))
    else firstIntAux cs

/-- Embedding of re.search for a digit group applied to a style name:
the first maximal digit run in the string, if any. -/
def firstInt (s : String) : Option Nat :=
  firstIntAux s.data

/-- Embedding of Python min() over a list (none on the empty list). -/
def listMin : List Nat → Option Nat
  | [] => none
  | x :: xs => some (xs.foldl min x)

/-! ### Data model -/

/-- Paragraph alignment (WD_ALIGN_PARAGRAPH). -/
inductive Align : Type where
  | left
  | center
  | right
  | justify
deriving DecidableEq, Repr

/-- A text run of a body or table paragraph: text, tri-state bold and
italic flags (none models the inherit value None), an optional character
style name, and an optional explicit language attribute on its run
properties. -/
structure Run where
  text : String
  bold : Option Bool
  italic : Option Bool
  style : Option String
  lang : Option String
deriving DecidableEq, Repr

/-- A paragraph: an optional named paragraph style and its runs. -/
structure Paragraph where
  style : Option String
  runs : List Run
deriving DecidableEq, Repr

/-- XML elements that can appear inside a footer run: literal text,
a field character marker (begin or end), or field instruction text. -/
inductive FldElem : Type where
  | txt (s : String)
  | fldChar (charType : String)
  | instrTxt (s : String)
deriving DecidableEq, Repr

/-- A footer run is its list of XML child elements. -/
structure FRun where
  elems : List FldElem
deriving DecidableEq, Repr

/-- A footer paragraph: alignment and runs. -/
structure FPara where
  alignment : Option Align
  runs : List FRun
deriving DecidableEq, Repr

/-- A section footer: its paragraphs. -/
structure Footer where
  paragraphs : List FPara
deriving DecidableEq, Repr

/-- A document section, of which only the footer matters here. -/
structure Section where
  footer : Footer
deriving DecidableEq, Repr

mutual
/-- A table: its rows. -/
inductive Tbl : Type where
  | mk (rows : List TblRow) : Tbl
/-- A table row: its cells. -/
inductive TblRow : Type where
  | mk (cells : List Cl) : TblRow
/-- A table cell: its direct paragraphs and the tables nested inside it. -/
inductive Cl : Type where
  | mk (paragraphs : List Paragraph) (tables : List Tbl) : Cl
end

def Tbl.rows : Tbl → List TblRow
  | .mk rs => rs

def TblRow.cells : TblRow → List Cl
  | .mk cs => cs

def Cl.paragraphs : Cl → List Paragraph
  | .mk ps _ => ps

def Cl.tables : Cl → List Tbl
  | .mk _ ts => ts

/-- The in-memory document: the names of the paragraph styles and of the
character styles defined in it (assigning an undefined name raises in
python-docx and is skipped by the source), the body paragraphs, the
top-level body tables, the sections, and the core properties used by the
pipeline. -/
structure Document where
  styles : List String
  charStyles : List String
  paragraphs : List Paragraph
  tables : List Tbl
  sections : List Section
  coreTitle : Option String
  coreLanguage : Option String

/-! ### Heading level parsing (shared by both heading passes) -/

/-- Level extracted from a style name: defined when the name starts with
Heading and contains a digit, as in both passes of the source. -/
def styleHeadingLevel (nm : String) : Option Nat :=
  if strStartsWith nm "Heading" then firstInt nm else none

/-- Heading level of a paragraph, none when the paragraph has no style
or its style name is not a heading name. -/
def paraHeadingLevel (p : Paragraph) : Option Nat :=
  match p.style with
  | none => none
  | some nm => styleHeadingLevel nm

/-- All heading levels present in the body, in document order
(the collection pass of normalize_heading_levels). -/
def headingLevels (d : Document) : List Nat :=
  d.paragraphs.filterMap paraHeadingLevel

/-- Embedding of `p.style = target_style_name` guarded by
try/except KeyError: the style changes only when the name is defined. -/
def setParaStyle (styles : List String) (p : Paragraph) (nm : String) : Paragraph :=
  if nm ∈ styles then { p with style := some nm } else p

/-- Embedding of `r.style = name` guarded by try/except: the character
style changes only when the name is defined. -/
def setRunStyle (charStyles : List String) (r : Run) (nm : String) : Run :=
  if nm ∈ charStyles then { r with style := some nm } else r

/-! ### normalize_heading_levels (the floor pass) -/

/-- The per-paragraph body of the second loop of normalize_heading_levels:
shift a heading at or above the minimum up by delta = minLvl - 1, clamped
into 1..9, skipping non-headings and levels below the minimum. -/
def normPara (styles : List String) (minLvl : Nat) (p : Paragraph) : Paragraph :=
  match paraHeadingLevel p with
  | none => p
  | some lvl =>
    if lvl < minLvl then p
    else setParaStyle styles p ("Heading " ++ Nat.repr (min (max 1 (lvl - (minLvl - 1))) 9))

/-- Embedding of normalize_heading_levels: collect the heading levels,
no-op when there are none or the minimum is already at most 1, otherwise
rebase every heading so the minimum becomes Heading 1. -/
def normalize_heading_levels (d : Document) : Document :=
  match listMin (headingLevels d) with
  | none => d
  | some minLvl =>
    if minLvl ≤ 1 then d
    else { d with paragraphs := d.paragraphs.map (normPara d.styles minLvl) }

/-! ### remap_headings (the start-level shift) -/

/-- The per-paragraph body of the loop of remap_headings: shift a heading
up by delta, clamped to at most 9, skipping non-headings. -/
def remapPara (styles : List String) (delta : Nat) (p : Paragraph) : Paragraph :=
  match paraHeadingLevel p with
  | none => p
  | some lvl => setParaStyle styles p ("Heading " ++ Nat.repr (min 9 (lvl + delta)))

/-- Embedding of remap_headings: delta = max(0, start_level - 1)
(Nat subtraction already truncates at 0, matching the Python max),
a no-op when delta is 0. -/
def remap_headings (d : Document) (start_level : Nat) : Document :=
  let delta := max 0 (start_level - 1)
  if delta = 0 then d
  else { d with paragraphs := d.paragraphs.map (remapPara d.styles delta) }

/-! ### bold_italic_to_character_styles -/

/-- The per-run body of bold_italic_to_character_styles: a bold run is
assigned the Strong style, then an italic run is assigned the Emphasis
style; a truthy flag is the value some true. -/
def mapRunBI (charStyles : List String) (r : Run) : Run :=
  let r1 := if r.bold = some true then setRunStyle charStyles r "Strong" else r
  if r1.italic = some true then setRunStyle charStyles r1 "Emphasis" else r1

/-- Embedding of bold_italic_to_character_styles: when enabled, rewrite
every run of every body paragraph with mapRunBI; tables are not visited. -/
def bold_italic_to_character_styles (d : Document) (use : Bool) : Document :=
  if !use then d
  else { d with paragraphs := d.paragraphs.map (fun p =>
    { p with runs := p.runs.map (mapRunBI d.charStyles) }) }

/-! ### apply_language_en_us -/

/-- Ensure run properties exist and set the language attribute. -/
def tagRun (r : Run) : Run :=
  { r with lang := some "en-US" }

/-- The tag_runs helper applied to one paragraph of a container. -/
def tagPara (p : Paragraph) : Paragraph :=
  { p with runs := p.runs.map tagRun }

/-- Tag the direct paragraphs of a cell; tables nested inside the cell
are not visited (tag_runs only iterates container.paragraphs). -/
def Cl.tagDirect : Cl → Cl
  | .mk ps ts => .mk (ps.map tagPara) ts

def TblRow.tagCells : TblRow → TblRow
  | .mk cs => .mk (cs.map Cl.tagDirect)

def Tbl.tagTop : Tbl → Tbl
  | .mk rs => .mk (rs.map TblRow.tagCells)

/-- Embedding of apply_language_en_us: tag every run of the body
paragraphs, then every run of the direct paragraphs of every cell of
every top-level table. -/
def apply_language_en_us (d : Document) : Document :=
  { d with
    paragraphs := d.paragraphs.map tagPara,
    tables := d.tables.map Tbl.tagTop }

/-! ### add_page_numbers -/

/-- Text of a footer run: the concatenation of its literal text
elements (field characters and instruction text carry no run text). -/
def FRun.text (r : FRun) : String :=
  String.join (r.elems.filterMap (fun e =>
    match e with
    | .txt s => some s
    | _ => none))

/-- Text of a footer paragraph: the concatenation of its run texts. -/
def FPara.text (p : FPara) : String :=
  String.join (p.runs.map FRun.text)

/-- The three elements appended to the fresh run: a begin field
character, the instruction text requesting the page number, and an end
field character. -/
def pageFieldElems : List FldElem :=
  [.fldChar "begin", .instrTxt " PAGE ", .fldChar "end"]

/-- The run assembled by add_page_numbers. -/
def pageFieldRun : FRun :=
  ⟨pageFieldElems⟩

/-- The per-section body of add_page_numbers: reuse the first footer
paragraph when its stripped text is empty, otherwise append a new
paragraph; center it; append a run holding the PAGE field. -/
def addPageToFooter (f : Footer) : Footer :=
  match f.paragraphs with
  | [] =>
    ⟨[{ alignment := some Align.center, runs := [pageFieldRun] }]⟩
  | p0 :: rest =>
    if pyStrip p0.text == "" then
      ⟨{ p0 with alignment := some Align.center, runs := p0.runs ++ [pageFieldRun] } :: rest⟩
    else
      ⟨(p0 :: rest) ++ [{ alignment := some Align.center, runs := [pageFieldRun] }]⟩

/-- Embedding of add_page_numbers: process the footer of every section. -/
def add_page_numbers (d : Document) : Document :=
  { d with sections := d.sections.map (fun s => { s with footer := addPageToFooter s.footer }) }

/-- A dynamic page-number field as described: a run whose content is
exactly the begin marker, the PAGE instruction, and the end marker. -/
def isPageFieldRun (r : FRun) : Bool :=
  r.elems == pageFieldElems

/-- Number of dynamic page-number fields in a footer. -/
def Footer.pageFieldCount (f : Footer) : Nat :=
  (f.paragraphs.map (fun p => p.runs.countP isPageFieldRun)).sum

/-! ### The pipeline of build_docx and the submission gate -/

/-- Steps 1 and 2 of build_docx: the floor pass, then the start-level
shift only when the requested start level exceeds 1. -/
def heading_passes (d : Document) (start_level : Nat) : Document :=
  let d1 := normalize_heading_levels d
  if start_level > 1 then remap_headings d1 start_level else d1

/-- The post-processing pipeline of build_docx applied to the document
produced by the conversion backend: heading passes, optional character
style mapping, page numbers, language core property, language tagging. -/
def build_docx_pipeline (d : Document) (start_level : Nat) (strong_emph : Bool) : Document :=
  let d2 := heading_passes d start_level
  let d3 := if strong_emph then bold_italic_to_character_styles d2 true else d2
  let d4 := add_page_numbers d3
  let d5 := { d4 with coreLanguage := some "en-US" }
  apply_language_en_us d5

/-- Which base style source each conversion path receives. -/
structure ConversionPlan where
  pandocReference : Option String
  fallbackBase : Option String
deriving DecidableEq, Repr

/-- The fallback converter fallback_htmldocx builds its document with
Document(), that is from the built-in default template: it receives no
reference document argument at all. -/
def fallback_htmldocx_base : Option String :=
  none

/-- How build_docx wires the style template: the pandoc path receives
the reference file exactly when it exists; the fallback path builds from
fallback_htmldocx_base. -/
def build_docx_plan (refExists : Bool) : ConversionPlan :=
  { pandocReference := if refExists then some "assets/reference.docx" else none,
    fallbackBase := fallback_htmldocx_base }

/-- Outcome of pressing the submit button. -/
inductive SubmitOutcome : Type where
  | validationError (msg : String)
  | convert (title html_body : String) (start_level : Nat) (strong_emph : Bool)
deriving DecidableEq, Repr

/-- Embedding of the submission handling: an empty or whitespace-only
HTML body is rejected with the validation message before build_docx is
invoked; otherwise build_docx is invoked with the four inputs. -/
def handle_submission (title html_body : String) (start_level : Nat) (strong_emph : Bool) :
    SubmitOutcome :=
  if html_body == "" || pyStrip html_body == "" then
    .validationError "HTML source is required. Please paste some HTML to convert."
  else
    .convert title html_body start_level strong_emph

/-! ### Concrete documents and derived observations -/

/-- A concrete document with headings at levels 2 and 3 and all heading
styles defined. -/
def dW1 : Document :=
  { styles := ["Heading 1", "Heading 2", "Heading 3", "Heading 4", "Heading 5",
      "Heading 6", "Heading 7", "Heading 8", "Heading 9"],
    charStyles := [],
    paragraphs := [⟨some "Heading 2", []⟩, ⟨some "Normal", []⟩, ⟨some "Heading 3", []⟩],
    tables := [], sections := [], coreTitle := none, coreLanguage := none }

/-- A document whose only heading paragraph has the style name
Heading 0, while every style Heading 1 through Heading 9 is defined. -/
def dC2 : Document :=
  { styles := ["Heading 0", "Heading 1", "Heading 2", "Heading 3", "Heading 4",
      "Heading 5", "Heading 6", "Heading 7", "Heading 8", "Heading 9"],
    charStyles := [],
    paragraphs := [⟨some "Heading 0", []⟩],
    tables := [], sections := [], coreTitle := none, coreLanguage := none }

/-- A concrete document with headings at levels 3 and 5. -/
def dW2 : Document :=
  { styles := ["Heading 1", "Heading 2", "Heading 3", "Heading 4", "Heading 5",
      "Heading 6", "Heading 7", "Heading 8", "Heading 9"],
    charStyles := [],
    paragraphs := [⟨some "Heading 3", []⟩, ⟨none, []⟩, ⟨some "Heading 5", []⟩],
    tables := [], sections := [], coreTitle := none, coreLanguage := none }

/-- A document with headings at levels 3 and 4 whose template defines
Heading 2, Heading 3 and Heading 4 but not Heading 1. -/
def dC6 : Document :=
  { styles := ["Heading 2", "Heading 3", "Heading 4"],
    charStyles := [],
    paragraphs := [⟨some "Heading 3", []⟩, ⟨some "Heading 4", []⟩],
    tables := [], sections := [], coreTitle := none, coreLanguage := none }

/-- A concrete document with headings at levels 2 and 4 and every
heading style defined. -/
def dW6 : Document :=
  { styles := ["Heading 1", "Heading 2", "Heading 3", "Heading 4", "Heading 5",
      "Heading 6", "Heading 7", "Heading 8", "Heading 9"],
    charStyles := [],
    paragraphs := [⟨some "Heading 2", []⟩, ⟨some "Heading 4", []⟩],
    tables := [], sections := [], coreTitle := none, coreLanguage := none }

/-- A bold run with no character style assigned. -/
def rC8 : Run :=
  { text := "bold text", bold := some true, italic := none, style := none, lang := none }

/-- A run that is both bold and italic. -/
def rC10 : Run :=
  { text := "both", bold := some true, italic := some true, style := none, lang := none }

/-- A document with one section whose footer already holds a page-number
field (for example because add_page_numbers already ran once); the
paragraph carrying it has empty text, so it counts as effectively empty. -/
def dC5 : Document :=
  { styles := [], charStyles := [], paragraphs := [], tables := [],
    sections := [⟨⟨[⟨none, [pageFieldRun]⟩]⟩⟩],
    coreTitle := none, coreLanguage := none }

/-- A footer with no content at all. -/
def fW5 : Footer := ⟨[]⟩

/-- Language attributes of every run in the scope the language tagger
actually visits: the body paragraphs and the direct paragraphs of the
cells of the top-level tables. -/
def taggedScopeLangs (d : Document) : List (Option String) :=
  (d.paragraphs.flatMap (fun p => p.runs.map Run.lang)) ++
    (d.tables.flatMap (fun t => t.rows.flatMap (fun row => row.cells.flatMap (fun c =>
      c.paragraphs.flatMap (fun p => p.runs.map Run.lang)))))

/-- Language attributes of the runs one nesting level deeper: runs of
the direct paragraphs of cells of tables nested within the cells of the
top-level tables. -/
def nestedTableRunLangs (d : Document) : List (Option String) :=
  d.tables.flatMap (fun t => t.rows.flatMap (fun row => row.cells.flatMap (fun c =>
    c.tables.flatMap (fun t2 => t2.rows.flatMap (fun row2 => row2.cells.flatMap (fun c2 =>
      c2.paragraphs.flatMap (fun p => p.runs.map Run.lang)))))))

/-- A run with the given text and no flags, style or language. -/
def plainRun (t : String) : Run :=
  { text := t, bold := none, italic := none, style := none, lang := none }

/-- A table cell holding a nested table whose single run carries no
language attribute. -/
def dC3 : Document :=
  { styles := [], charStyles := [], paragraphs := [],
    tables := [Tbl.mk [TblRow.mk [Cl.mk
      [⟨none, [plainRun "outer"]⟩]
      [Tbl.mk [TblRow.mk [Cl.mk [⟨none, [plainRun "inner"]⟩] []]]]]]],
    sections := [], coreTitle := none, coreLanguage := none }

/-- A document with an untagged body run and an untagged top-level
table-cell run. -/
def dW3 : Document :=
  { styles := [], charStyles := [],
    paragraphs := [⟨none, [plainRun "body"]⟩],
    tables := [Tbl.mk [TblRow.mk [Cl.mk [⟨none, [plainRun "cell"]⟩] []]]],
    sections := [], coreTitle := none, coreLanguage := none }

/-! ### Lemmas about listMin -/

theorem foldl_min_le_init (xs : List Nat) (a : Nat) : xs.foldl min a ≤ a := by
  induction xs generalizing a with
  | nil => exact Nat.le_refl a
  | cons c cs ih =>
    calc cs.foldl min (min a c) ≤ min a c := ih (min a c)
    _ ≤ a := Nat.min_le_left a c

theorem foldl_min_le_mem (xs : List Nat) (a x : Nat) (hx : x ∈ xs) :
    xs.foldl min a ≤ x := by
  induction xs generalizing a with
  | nil => cases hx
  | cons c cs ih =>
    rcases List.mem_cons.mp hx with h | h
    · subst h
      calc cs.foldl min (min a x) ≤ min a x := foldl_min_le_init cs (min a x)
      _ ≤ x := Nat.min_le_right a x
    · exact ih (min a c) h

theorem le_foldl_min (xs : List Nat) (a c : Nat) (hc : c ≤ a) (h : ∀ x ∈ xs, c ≤ x) :
    c ≤ xs.foldl min a := by
  induction xs generalizing a with
  | nil => exact hc
  | cons b bs ih =>
    exact ih (min a b) (Nat.le_min.mpr ⟨hc, h b (List.mem_cons_self b bs)⟩)
      (fun x hx => h x (List.mem_cons_of_mem b hx))

theorem listMin_le {l : List Nat} {m : Nat} (h : listMin l = some m) :
    ∀ x ∈ l, m ≤ x := by
  cases l with
  | nil => simp [listMin] at h
  | cons a xs =>
    simp only [listMin, Option.some.injEq] at h
    intro x hx
    rcases List.mem_cons.mp hx with hxa | hxs
    · subst hxa; exact h ▸ foldl_min_le_init xs x
    · exact h ▸ foldl_min_le_mem xs a x hxs

theorem listMin_eq_some {l : List Nat} {m : Nat} (hm : m ∈ l) (hle : ∀ x ∈ l, m ≤ x) :
    listMin l = some m := by
  cases l with
  | nil => cases hm
  | cons a xs =>
    simp only [listMin, Option.some.injEq]
    apply Nat.le_antisymm
    · rcases List.mem_cons.mp hm with h | h
      · exact h ▸ foldl_min_le_init xs a
      · exact foldl_min_le_mem xs a m h
    · exact le_foldl_min xs a m (hle a (List.mem_cons_self a xs))
        (fun x hx => hle x (List.mem_cons_of_mem a hx))

theorem listMin_isSome {l : List Nat} (h : l ≠ []) : ∃ m, listMin l = some m := by
  cases l with
  | nil => exact absurd rfl h
  | cons a xs => exact ⟨xs.foldl min a, rfl⟩

theorem foldl_min_mem (xs : List Nat) (a : Nat) :
    xs.foldl min a = a ∨ xs.foldl min a ∈ xs := by
  induction xs generalizing a with
  | nil => exact Or.inl rfl
  | cons c cs ih =>
    show cs.foldl min (min a c) = a ∨ cs.foldl min (min a c) ∈ c :: cs
    rcases ih (min a c) with he | he
    · rcases Nat.le_total a c with hac | hca
      · rw [he, Nat.min_eq_left hac]; exact Or.inl rfl
      · rw [he, Nat.min_eq_right hca]; exact Or.inr (List.mem_cons_self c cs)
    · exact Or.inr (List.mem_cons_of_mem c he)

theorem listMin_mem {l : List Nat} {m : Nat} (h : listMin l = some m) : m ∈ l := by
  cases l with
  | nil => simp [listMin] at h
  | cons a xs =>
    simp only [listMin, Option.some.injEq] at h
    rcases foldl_min_mem xs a with he | he
    · rw [← h, he]; exact List.mem_cons_self a xs
    · rw [← h]; exact List.mem_cons_of_mem a he

/-! ### Heading level lemmas -/

theorem styleHeadingLevel_headingName {k : Nat} (h1 : 1 ≤ k) (h9 : k ≤ 9) :
    styleHeadingLevel ("Heading " ++ Nat.repr k) = some k := by
  interval_cases k <;> decide

theorem paraHeadingLevel_styled (p : Paragraph) (nm : String) :
    paraHeadingLevel { p with style := some nm } = styleHeadingLevel nm := rfl

theorem paraHeadingLevel_setParaStyle {styles : List String} {k : Nat} (p : Paragraph)
    (h1 : 1 ≤ k) (h9 : k ≤ 9) (hmem : ("Heading " ++ Nat.repr k) ∈ styles) :
    paraHeadingLevel (setParaStyle styles p ("Heading " ++ Nat.repr k)) = some k := by
  unfold setParaStyle
  rw [if_pos hmem, paraHeadingLevel_styled]
  exact styleHeadingLevel_headingName h1 h9

theorem mem_oneToNine {k : Nat} (h1 : 1 ≤ k) (h9 : k ≤ 9) :
    k ∈ [1, 2, 3, 4, 5, 6, 7, 8, 9] := by
  interval_cases k <;> decide

theorem setParaStyle_cases (styles : List String) (p : Paragraph) (nm : String) :
    setParaStyle styles p nm = p ∨
      (nm ∈ styles ∧ setParaStyle styles p nm = { p with style := some nm }) := by
  unfold setParaStyle
  by_cases h : nm ∈ styles
  · exact Or.inr ⟨h, if_pos h⟩
  · exact Or.inl (if_neg h)

theorem normPara_level_cases (styles : List String) (m : Nat) (p : Paragraph) (lvl : Nat)
    (h : paraHeadingLevel p = some lvl) :
    paraHeadingLevel (normPara styles m p) = some lvl ∨
      paraHeadingLevel (normPara styles m p) = some (min (max 1 (lvl - (m - 1))) 9) := by
  simp only [normPara, h]
  by_cases hl : lvl < m
  · rw [if_pos hl]; exact Or.inl h
  · rw [if_neg hl]
    rcases setParaStyle_cases styles p ("Heading " ++ Nat.repr (min (max 1 (lvl - (m - 1))) 9))
      with he | ⟨_, he⟩
    · rw [he]; exact Or.inl h
    · rw [he, paraHeadingLevel_styled]
      right
      have hk : 1 ≤ min (max 1 (lvl - (m - 1))) 9 ∧ min (max 1 (lvl - (m - 1))) 9 ≤ 9 := by
        omega
      exact styleHeadingLevel_headingName hk.1 hk.2

theorem remapPara_level_cases (styles : List String) (delta : Nat) (p : Paragraph) (lvl : Nat)
    (h : paraHeadingLevel p = some lvl) :
    paraHeadingLevel (remapPara styles delta p) = some lvl ∨
      (1 ≤ lvl + delta ∧
        paraHeadingLevel (remapPara styles delta p) = some (min 9 (lvl + delta))) := by
  simp only [remapPara, h]
  rcases setParaStyle_cases styles p ("Heading " ++ Nat.repr (min 9 (lvl + delta)))
    with he | ⟨_, he⟩
  · rw [he]; exact Or.inl h
  · rw [he, paraHeadingLevel_styled]
    by_cases hz : 1 ≤ lvl + delta
    · exact Or.inr ⟨hz, styleHeadingLevel_headingName (by omega) (by omega)⟩
    · left
      have hlz : lvl = 0 := by omega
      have hdz : delta = 0 := by omega
      subst hlz; subst hdz
      decide

theorem filterMap_map_congr {α β : Type} {l : List α} {g : α → α} {f f2 : α → Option β}
    (h : ∀ a ∈ l, f (g a) = f2 a) : (l.map g).filterMap f = l.filterMap f2 := by
  rw [List.filterMap_map]
  exact List.filterMap_congr h

theorem normalize_of_no_headings {d : Document}
    (hm : listMin (headingLevels d) = none) :
    normalize_heading_levels d = d := by
  simp only [normalize_heading_levels, hm]

theorem normalize_of_min_le_one {d : Document} {m : Nat}
    (hm : listMin (headingLevels d) = some m) (h1 : m ≤ 1) :
    normalize_heading_levels d = d := by
  simp only [normalize_heading_levels, hm]
  rw [if_pos h1]

theorem normalize_of_min_gt_one {d : Document} {m : Nat}
    (hm : listMin (headingLevels d) = some m) (h2 : 2 ≤ m) :
    normalize_heading_levels d =
      { d with paragraphs := d.paragraphs.map (normPara d.styles m) } := by
  simp only [normalize_heading_levels, hm]
  rw [if_neg (by omega)]

theorem normalize_styles_eq (d : Document) :
    (normalize_heading_levels d).styles = d.styles := by
  rcases h : listMin (headingLevels d) with _ | m
  · rw [normalize_of_no_headings h]
  · by_cases h1 : m ≤ 1
    · rw [normalize_of_min_le_one h h1]
    · rw [normalize_of_min_gt_one h (by omega)]

theorem headingLevels_update (d : Document) (ps : List Paragraph) :
    headingLevels { d with paragraphs := ps } = ps.filterMap paraHeadingLevel := rfl

/-- Characterization of the floor pass on documents whose heading levels
all lie in 1..9 when every target heading style is defined: each level l
becomes l - (m - 1), where m is the minimum level. -/
theorem headingLevels_normalize {d : Document} {m : Nat}
    (hm : listMin (headingLevels d) = some m) (hm1 : 1 ≤ m)
    (hstyles : ∀ k ∈ [1, 2, 3, 4, 5, 6, 7, 8, 9], ("Heading " ++ Nat.repr k) ∈ d.styles)
    (hub : ∀ l ∈ headingLevels d, l ≤ 9) :
    headingLevels (normalize_heading_levels d) =
      (headingLevels d).map (fun l => l - (m - 1)) := by
  by_cases h2 : m ≤ 1
  · rw [normalize_of_min_le_one hm h2]
    have hm_eq : m = 1 := by omega
    subst hm_eq
    simp
  · rw [normalize_of_min_gt_one hm (by omega), headingLevels_update]
    unfold headingLevels
    rw [List.map_filterMap]
    apply filterMap_map_congr
    intro p hp
    rcases h : paraHeadingLevel p with _ | lvl
    · simp [normPara, h]
    · have hmem : lvl ∈ headingLevels d := List.mem_filterMap.mpr ⟨p, hp, h⟩
      have hub' := hub lvl hmem
      have hge := listMin_le hm lvl hmem
      have hk : min (max 1 (lvl - (m - 1))) 9 = lvl - (m - 1) := by omega
      have hkb : 1 ≤ lvl - (m - 1) ∧ lvl - (m - 1) ≤ 9 := by omega
      simp only [normPara, h, if_neg (show ¬lvl < m by omega)]
      rw [hk, paraHeadingLevel_setParaStyle p hkb.1 hkb.2
        (hstyles _ (mem_oneToNine hkb.1 hkb.2))]
      simp

theorem remap_of_start_gt_one {d : Document} {s : Nat} (hs : 2 ≤ s) :
    remap_headings d s =
      { d with paragraphs := d.paragraphs.map (remapPara d.styles (s - 1)) } := by
  have hd : max 0 (s - 1) = s - 1 := by omega
  simp only [remap_headings, hd]
  rw [if_neg (by omega)]

/-- Characterization of the start-level shift on documents whose heading
levels are all at least 1 when every target heading style is defined:
each level l becomes min 9 (l + (s - 1)). -/
theorem headingLevels_remap {d : Document} {s : Nat} (hs : 2 ≤ s)
    (hstyles : ∀ k ∈ [1, 2, 3, 4, 5, 6, 7, 8, 9], ("Heading " ++ Nat.repr k) ∈ d.styles)
    (hlb : ∀ l ∈ headingLevels d, 1 ≤ l) :
    headingLevels (remap_headings d s) =
      (headingLevels d).map (fun l => min 9 (l + (s - 1))) := by
  rw [remap_of_start_gt_one hs, headingLevels_update]
  unfold headingLevels
  rw [List.map_filterMap]
  apply filterMap_map_congr
  intro p hp
  rcases h : paraHeadingLevel p with _ | lvl
  · simp [remapPara, h]
  · have hmem : lvl ∈ headingLevels d := List.mem_filterMap.mpr ⟨p, hp, h⟩
    have hlb' := hlb lvl hmem
    have hkb : 1 ≤ min 9 (lvl + (s - 1)) ∧ min 9 (lvl + (s - 1)) ≤ 9 := by omega
    simp only [remapPara, h]
    rw [paraHeadingLevel_setParaStyle p hkb.1 hkb.2
      (hstyles _ (mem_oneToNine hkb.1 hkb.2))]
    simp

/-- The paragraph achieving the minimum level is reassigned Heading 1 by
the floor pass, provided the style Heading 1 is defined. -/
theorem one_mem_normalize {d : Document} {m : Nat}
    (hm : listMin (headingLevels d) = some m) (h2 : 2 ≤ m)
    (hH1 : "Heading 1" ∈ d.styles) :
    1 ∈ headingLevels (normalize_heading_levels d) := by
  rw [normalize_of_min_gt_one hm h2, headingLevels_update]
  obtain ⟨p, hp, hlev⟩ := List.mem_filterMap.mp (listMin_mem hm)
  apply List.mem_filterMap.mpr
  refine ⟨normPara d.styles m p, List.mem_map.mpr ⟨p, hp, rfl⟩, ?_⟩
  simp only [normPara, hlev, if_neg (show ¬m < m by omega)]
  have hk : min (max 1 (m - (m - 1))) 9 = 1 := by omega
  rw [hk]
  have h1 : ("Heading " ++ Nat.repr 1) ∈ d.styles := by
    have he : ("Heading " ++ Nat.repr 1) = "Heading 1" := by decide
    rw [he]; exact hH1
  exact paraHeadingLevel_setParaStyle p (by omega) (by omega) h1

/-- Every level left by the floor pass is at least 1, provided every
original level is. -/
theorem normalize_levels_lb {d : Document} {m : Nat}
    (hm : listMin (headingLevels d) = some m) (h2 : 2 ≤ m)
    (hlb : ∀ l ∈ headingLevels d, 1 ≤ l) :
    ∀ y ∈ headingLevels (normalize_heading_levels d), 1 ≤ y := by
  rw [normalize_of_min_gt_one hm h2, headingLevels_update]
  intro y hy
  obtain ⟨q, hq, hlev⟩ := List.mem_filterMap.mp hy
  obtain ⟨p, hp, he⟩ := List.mem_map.mp hq
  subst he
  rcases hcase : paraHeadingLevel p with _ | lvl
  · simp [normPara, hcase] at hlev
  · have hl1 : 1 ≤ lvl := hlb lvl (List.mem_filterMap.mpr ⟨p, hp, hcase⟩)
    rcases normPara_level_cases d.styles m p lvl hcase with hc | hc
    · rw [hc] at hlev
      injection hlev with he2
      omega
    · rw [hc] at hlev
      injection hlev with he2
      omega

/-! ### Claim C1 -/

/-- C1: for every input document whose heading levels are a subset of
1..9 (and at least one heading is present, so a minimum exists), and
every requested start level s in 1..9, running the floor pass followed
by the shift pass (applied only when s exceeds 1, exactly as build_docx
sequences them) yields a document whose minimum heading level equals
max 1 s and in which no heading level exceeds 9, under the precondition
that every style Heading 1 through Heading 9 is defined. -/
theorem C1_heading_passes_min_max (d : Document) (s : Nat)
    (hs1 : 1 ≤ s) (hs9 : s ≤ 9)
    (hstyles : ∀ k ∈ [1, 2, 3, 4, 5, 6, 7, 8, 9], ("Heading " ++ Nat.repr k) ∈ d.styles)
    (hlvls : ∀ l ∈ headingLevels d, 1 ≤ l ∧ l ≤ 9)
    (hne : headingLevels d ≠ []) :
    listMin (headingLevels (heading_passes d s)) = some (max 1 s) ∧
      ∀ l ∈ headingLevels (heading_passes d s), l ≤ 9 := by
  obtain ⟨m, hm⟩ := listMin_isSome hne
  have hm_mem := listMin_mem hm
  have hm1 : 1 ≤ m := (hlvls m hm_mem).1
  have h1 : headingLevels (normalize_heading_levels d) =
      (headingLevels d).map (fun l => l - (m - 1)) :=
    headingLevels_normalize hm hm1 hstyles (fun l hl => (hlvls l hl).2)
  have hd1b : ∀ l ∈ headingLevels (normalize_heading_levels d), 1 ≤ l ∧ l ≤ 9 := by
    rw [h1]
    intro y hy
    obtain ⟨l, hl, he⟩ := List.mem_map.mp hy
    have hb := hlvls l hl
    have hge := listMin_le hm l hl
    omega
  have hone : 1 ∈ headingLevels (normalize_heading_levels d) := by
    rw [h1]
    exact List.mem_map.mpr ⟨m, hm_mem, by omega⟩
  simp only [heading_passes]
  by_cases hs : s > 1
  · rw [if_pos hs]
    have hsty1 : ∀ k ∈ [1, 2, 3, 4, 5, 6, 7, 8, 9],
        ("Heading " ++ Nat.repr k) ∈ (normalize_heading_levels d).styles := by
      rw [normalize_styles_eq]; exact hstyles
    have h2 := headingLevels_remap (d := normalize_heading_levels d) (s := s) (by omega) hsty1
      (fun l hl => (hd1b l hl).1)
    rw [h2]
    have hmax : max 1 s = s := by omega
    refine ⟨?_, ?_⟩
    · rw [hmax]
      apply listMin_eq_some
      · exact List.mem_map.mpr ⟨1, hone, by omega⟩
      · intro y hy
        obtain ⟨l, hl, he⟩ := List.mem_map.mp hy
        have := (hd1b l hl).1
        omega
    · intro y hy
      obtain ⟨l, hl, he⟩ := List.mem_map.mp hy
      omega
  · rw [if_neg hs]
    have hseq : s = 1 := by omega
    subst hseq
    refine ⟨?_, fun y hy => (hd1b y hy).2⟩
    apply listMin_eq_some
    · simpa using hone
    · intro y hy
      have := (hd1b y hy).1
      omega

/-- Witness for C1: floor then shift with start level 3 takes levels
2 and 3 to 3 and 4, so the minimum is max 1 3 and all levels stay at
most 9. -/
theorem C1_witness :
    listMin (headingLevels (heading_passes dW1 3)) = some (max 1 3) ∧
      ∀ l ∈ headingLevels (heading_passes dW1 3), l ≤ 9 :=
  C1_heading_passes_min_max dW1 3 (by decide) (by decide) (by decide) (by decide) (by decide)

/-! ### Claim C2 -/

/-- C2 counterexample: dC2 contains a heading paragraph (its style name
starts with Heading and contains a digit) and every target Heading N
style is defined, yet after the floor pass the minimum heading level is
0, not 1: the pass is a no-op whenever the minimum is at most 1, so a
level-0 heading is left at level 0. -/
theorem C2_counterexample :
    (∀ k ∈ [1, 2, 3, 4, 5, 6, 7, 8, 9], ("Heading " ++ Nat.repr k) ∈ dC2.styles) ∧
      headingLevels dC2 ≠ [] ∧
      listMin (headingLevels (normalize_heading_levels dC2)) ≠ some 1 := by
  decide

/-- C2 amended: for every document with at least one heading paragraph
whose heading levels are all at least 1, after the floor pass the
minimum heading level present is exactly 1, under the precondition that
the target Heading N styles exist. -/
theorem C2_amended_floor_min_one (d : Document)
    (hstyles : ∀ k ∈ [1, 2, 3, 4, 5, 6, 7, 8, 9], ("Heading " ++ Nat.repr k) ∈ d.styles)
    (hlb : ∀ l ∈ headingLevels d, 1 ≤ l)
    (hne : headingLevels d ≠ []) :
    listMin (headingLevels (normalize_heading_levels d)) = some 1 := by
  obtain ⟨m, hm⟩ := listMin_isSome hne
  have hm1 : 1 ≤ m := hlb m (listMin_mem hm)
  by_cases h2 : m ≤ 1
  · rw [normalize_of_min_le_one hm h2]
    have he : m = 1 := by omega
    rw [← he]
    exact hm
  · have hH1 : "Heading 1" ∈ d.styles := by
      have he : ("Heading " ++ Nat.repr 1) = "Heading 1" := by decide
      rw [← he]
      exact hstyles 1 (by decide)
    exact listMin_eq_some (one_mem_normalize hm (by omega) hH1)
      (normalize_levels_lb hm (by omega) hlb)

/-- Witness for the amended C2: the floor pass takes levels 3 and 5 of
dW2 to 1 and 3, so the minimum becomes exactly 1. -/
theorem C2_witness :
    listMin (headingLevels (normalize_heading_levels dW2)) = some 1 :=
  C2_amended_floor_min_one dW2 (by decide) (by decide) (by decide)

/-! ### Claim C6 -/

/-- C6 counterexample: the floor pass is not idempotent on dC6. One run
takes levels 3, 4 to 3, 2 (the shift of the level-3 paragraph to
Heading 1 is skipped because that style is missing, while the level-4
paragraph becomes Heading 2); a second run then takes 3, 2 to 2, 2, so
running the pass twice differs from running it once. -/
theorem C6_counterexample :
    ¬ normalize_heading_levels (normalize_heading_levels dC6) =
        normalize_heading_levels dC6 := by
  intro h
  have hp := congrArg (fun d => d.paragraphs.map Paragraph.style) h
  exact absurd hp (by decide)

/-- C6 amended: the floor pass is idempotent on every document whose
template defines the style Heading 1 (the counterexample forces exactly
this precondition: without Heading 1 the rebase of the minimum paragraph
can be skipped while higher paragraphs still move). -/
theorem C6_amended_floor_idempotent (d : Document) (hH1 : "Heading 1" ∈ d.styles) :
    normalize_heading_levels (normalize_heading_levels d) = normalize_heading_levels d := by
  rcases hm : listMin (headingLevels d) with _ | m
  · rw [normalize_of_no_headings hm, normalize_of_no_headings hm]
  · by_cases h1 : m ≤ 1
    · rw [normalize_of_min_le_one hm h1, normalize_of_min_le_one hm h1]
    · have hone : 1 ∈ headingLevels (normalize_heading_levels d) :=
        one_mem_normalize hm (by omega) hH1
      have hne2 : headingLevels (normalize_heading_levels d) ≠ [] := by
        intro he
        rw [he] at hone
        cases hone
      obtain ⟨m2, hm2⟩ := listMin_isSome hne2
      exact normalize_of_min_le_one hm2 (listMin_le hm2 1 hone)

/-- Witness for the amended C6 at a concrete document. -/
theorem C6_witness :
    normalize_heading_levels (normalize_heading_levels dW6) = normalize_heading_levels dW6 :=
  C6_amended_floor_idempotent dW6 (by decide)

/-! ### Run-level lemmas for the character style mapper -/

theorem setRunStyle_frame (cs : List String) (r : Run) (nm : String) :
    (setRunStyle cs r nm).text = r.text ∧ (setRunStyle cs r nm).bold = r.bold ∧
      (setRunStyle cs r nm).italic = r.italic ∧ (setRunStyle cs r nm).lang = r.lang := by
  unfold setRunStyle
  split_ifs <;> exact ⟨rfl, rfl, rfl, rfl⟩

theorem mapRunBI_frame (cs : List String) (r : Run) :
    (mapRunBI cs r).text = r.text ∧ (mapRunBI cs r).bold = r.bold ∧
      (mapRunBI cs r).italic = r.italic ∧ (mapRunBI cs r).lang = r.lang := by
  unfold mapRunBI
  split_ifs <;>
    simp only [setRunStyle_frame, setRunStyle] <;>
    split_ifs <;>
    exact ⟨rfl, rfl, rfl, rfl⟩

theorem mapRunBI_skip (cs : List String) (r : Run)
    (hS : r.bold = some true → "Strong" ∉ cs)
    (hE : r.italic = some true → "Emphasis" ∉ cs) :
    mapRunBI cs r = r := by
  unfold mapRunBI setRunStyle
  by_cases hb : r.bold = some true
  · rw [if_pos hb, if_neg (hS hb)]
    by_cases hi : r.italic = some true
    · rw [if_pos hi, if_neg (hE hi)]
    · rw [if_neg hi]
  · rw [if_neg hb]
    by_cases hi : r.italic = some true
    · rw [if_pos hi, if_neg (hE hi)]
    · rw [if_neg hi]

theorem bold_italic_paragraphs (d : Document) :
    (bold_italic_to_character_styles d true).paragraphs =
      d.paragraphs.map (fun p => { p with runs := p.runs.map (mapRunBI d.charStyles) }) := rfl

/-! ### Claim C7 -/

/-- C7: the character style mapping pass never alters the text of any
run that exists before the pass, nor its bold or italic flags, nor its
language attribute, nor any paragraph style; runs are neither added nor
removed, and tables and sections are untouched. Only the run style
reference may change. -/
theorem C7_style_mapping_preserves_text (d : Document) (use : Bool) :
    (bold_italic_to_character_styles d use).paragraphs.map
        (fun p => (p.style, p.runs.map (fun r => (r.text, r.bold, r.italic, r.lang)))) =
      d.paragraphs.map
        (fun p => (p.style, p.runs.map (fun r => (r.text, r.bold, r.italic, r.lang)))) ∧
      (bold_italic_to_character_styles d use).tables = d.tables ∧
      (bold_italic_to_character_styles d use).sections = d.sections := by
  cases use with
  | false => exact ⟨rfl, rfl, rfl⟩
  | true =>
    refine ⟨?_, rfl, rfl⟩
    rw [bold_italic_paragraphs, List.map_map]
    apply List.map_congr_left
    intro p _
    simp only [Function.comp_apply]
    refine congrArg _ ?_
    show (p.runs.map (mapRunBI d.charStyles)).map _ = _
    rw [List.map_map]
    apply List.map_congr_left
    intro r _
    have h := mapRunBI_frame d.charStyles r
    simp only [Function.comp_apply, h.1, h.2.1, h.2.2.1, h.2.2.2]

/-! ### Claim C8 -/

/-- C8: a missing target style never aborts a pass and the affected
element is skipped silently. Conjuncts: a heading paragraph whose target
Heading N name is undefined is left entirely unchanged by the remap
body; a run none of whose applicable targets (Strong when bold, Emphasis
when italic) is defined is left entirely unchanged by the style mapping
body; the style mapping body never changes the direct bold and italic
flags or the text of any run; and these per-element bodies are exactly
what remap_headings and bold_italic_to_character_styles apply to every
paragraph and run. -/
theorem C8_missing_style_skips :
    (∀ (styles : List String) (delta : Nat) (p : Paragraph) (lvl : Nat),
      paraHeadingLevel p = some lvl →
      ("Heading " ++ Nat.repr (min 9 (lvl + delta))) ∉ styles →
      remapPara styles delta p = p) ∧
    (∀ (cs : List String) (r : Run),
      (r.bold = some true → "Strong" ∉ cs) →
      (r.italic = some true → "Emphasis" ∉ cs) →
      mapRunBI cs r = r) ∧
    (∀ (cs : List String) (r : Run),
      (mapRunBI cs r).text = r.text ∧ (mapRunBI cs r).bold = r.bold ∧
        (mapRunBI cs r).italic = r.italic) ∧
    (∀ (d : Document) (s : Nat), 2 ≤ s →
      (remap_headings d s).paragraphs = d.paragraphs.map (remapPara d.styles (s - 1))) ∧
    (∀ (d : Document),
      (bold_italic_to_character_styles d true).paragraphs =
        d.paragraphs.map (fun p => { p with runs := p.runs.map (mapRunBI d.charStyles) })) := by
  refine ⟨?_, mapRunBI_skip, ?_, ?_, bold_italic_paragraphs⟩
  · intro styles delta p lvl h hmiss
    simp only [remapPara, h, setParaStyle, if_neg hmiss]
  · intro cs r
    have h := mapRunBI_frame cs r
    exact ⟨h.1, h.2.1, h.2.2.1⟩
  · intro d s hs
    rw [remap_of_start_gt_one hs]

/-- Witness for C8: with an empty style table the remap body leaves a
Heading 2 paragraph unchanged, and with a template lacking the Strong
style the mapping body leaves a bold run (flags included) unchanged. -/
theorem C8_witness :
    remapPara [] 2 ⟨some "Heading 2", []⟩ = ⟨some "Heading 2", []⟩ ∧
      mapRunBI ["Emphasis"] rC8 = rC8 :=
  ⟨C8_missing_style_skips.1 [] 2 ⟨some "Heading 2", []⟩ 2 (by decide) (by decide),
    C8_missing_style_skips.2.1 ["Emphasis"] rC8 (fun _ => by decide) (fun h => nomatch h)⟩

/-! ### Claim C10 -/

/-- C10: for a run whose bold and italic flags are both set, with the
toggle enabled and both Strong and Emphasis defined, the final character
style is Emphasis: the italic assignment runs second and overwrites the
Strong assignment; and the per-run body is exactly what the enabled pass
applies to every run of every body paragraph. -/
theorem C10_emphasis_overwrites_strong :
    (∀ (cs : List String) (r : Run),
      r.bold = some true → r.italic = some true → "Strong" ∈ cs → "Emphasis" ∈ cs →
      (mapRunBI cs r).style = some "Emphasis") ∧
    (∀ (d : Document),
      (bold_italic_to_character_styles d true).paragraphs =
        d.paragraphs.map (fun p => { p with runs := p.runs.map (mapRunBI d.charStyles) })) := by
  refine ⟨?_, bold_italic_paragraphs⟩
  intro cs r hb hi hS hE
  unfold mapRunBI setRunStyle
  rw [if_pos hb, if_pos hS]
  have hi1 : ({ r with style := some "Strong" } : Run).italic = some true := hi
  rw [if_pos hi1, if_pos hE]

/-- Witness for C10 at a concrete run and template. -/
theorem C10_witness :
    (mapRunBI ["Strong", "Emphasis"] rC10).style = some "Emphasis" :=
  C10_emphasis_overwrites_strong.1 ["Strong", "Emphasis"] rC10 rfl rfl (by decide) (by decide)

/-! ### Claim C5 -/

theorem countP_single_pageFieldRun : [pageFieldRun].countP isPageFieldRun = 1 := by decide

/-- Processing one footer adds exactly one page-number field. -/
theorem addPageToFooter_count (f : Footer) :
    (addPageToFooter f).pageFieldCount = f.pageFieldCount + 1 := by
  rcases f with ⟨ps⟩
  cases ps with
  | nil => decide
  | cons p0 rest =>
    simp only [addPageToFooter]
    cases hb : (pyStrip p0.text == "") with
    | true =>
      rw [if_pos rfl]
      simp only [Footer.pageFieldCount, List.map_cons, List.sum_cons, List.countP_append,
        countP_single_pageFieldRun]
      omega
    | false =>
      rw [if_neg (by simp)]
      simp only [Footer.pageFieldCount, List.map_append, List.sum_append, List.map_cons,
        List.sum_cons, List.map_nil, List.sum_nil, countP_single_pageFieldRun]
      omega

/-- C5 counterexample: after add_page_numbers runs on dC5, the single
footer of the document contains two dynamic page-number fields, not
exactly one: the pass always appends a fresh field and never checks for
an existing one, so the claimed regardless of previous content fails. -/
theorem C5_counterexample :
    (add_page_numbers dC5).sections.map (fun s => s.footer.pageFieldCount) = [2] := by
  decide

/-- C5 amended: add_page_numbers gives every section footer exactly one
MORE page-number field than it had before (hence exactly one whenever it
had none), assembled as a single fresh run holding the field-begin
marker, the PAGE instruction text and the field-end marker, placed in a
center-aligned paragraph; the first footer paragraph is reused exactly
when its stripped text is empty, and otherwise a new paragraph is
appended. -/
theorem C5_amended_page_numbers :
    (∀ (d : Document),
      (add_page_numbers d).sections.map (fun s => s.footer.pageFieldCount) =
        d.sections.map (fun s => s.footer.pageFieldCount + 1)) ∧
    (∀ (f : Footer), f.pageFieldCount = 0 → (addPageToFooter f).pageFieldCount = 1) ∧
    (∀ (f : Footer), ∃ p ∈ (addPageToFooter f).paragraphs,
      p.alignment = some Align.center ∧ pageFieldRun ∈ p.runs) ∧
    (∀ (p0 : FPara) (rest : List FPara), (pyStrip p0.text == "") = true →
      (addPageToFooter ⟨p0 :: rest⟩).paragraphs =
        { p0 with alignment := some Align.center, runs := p0.runs ++ [pageFieldRun] } :: rest) ∧
    (∀ (p0 : FPara) (rest : List FPara), (pyStrip p0.text == "") = false →
      (addPageToFooter ⟨p0 :: rest⟩).paragraphs =
        (p0 :: rest) ++ [{ alignment := some Align.center, runs := [pageFieldRun] }]) := by
  refine ⟨?_, ?_, ?_, ?_, ?_⟩
  · intro d
    show (d.sections.map _).map _ = _
    rw [List.map_map]
    apply List.map_congr_left
    intro s _
    simp only [Function.comp_apply]
    exact addPageToFooter_count s.footer
  · intro f h0
    rw [addPageToFooter_count, h0]
  · intro f
    rcases f with ⟨ps⟩
    cases ps with
    | nil =>
      refine ⟨_, List.mem_singleton_self _, rfl, ?_⟩
      exact List.mem_singleton_self _
    | cons p0 rest =>
      simp only [addPageToFooter]
      cases hb : (pyStrip p0.text == "") with
      | true =>
        rw [if_pos rfl]
        refine ⟨_, List.mem_cons_self _ _, rfl, ?_⟩
        exact List.mem_append_right _ (List.mem_singleton_self _)
      | false =>
        rw [if_neg (by simp)]
        refine ⟨_, List.mem_append_right _ (List.mem_singleton_self _), rfl, ?_⟩
        exact List.mem_singleton_self _
  · intro p0 rest hb
    simp [addPageToFooter, hb]
  · intro p0 rest hb
    simp [addPageToFooter, hb]

/-- Witness for the amended C5: a previously field-free footer ends with
exactly one page-number field. -/
theorem C5_witness : (addPageToFooter fW5).pageFieldCount = 1 :=
  C5_amended_page_numbers.2.1 fW5 (by decide)

/-! ### Claim C3 -/

theorem Tbl.rows_tagTop (t : Tbl) :
    (Tbl.tagTop t).rows = t.rows.map TblRow.tagCells := by
  cases t
  rfl

theorem TblRow.cells_tagCells (row : TblRow) :
    (TblRow.tagCells row).cells = row.cells.map Cl.tagDirect := by
  cases row
  rfl

theorem Cl.paragraphs_tagDirect (c : Cl) :
    (Cl.tagDirect c).paragraphs = c.paragraphs.map tagPara := by
  cases c
  rfl

theorem mem_langs_map_tagPara {ps : List Paragraph} {x : Option String}
    (hx : x ∈ (ps.map tagPara).flatMap (fun p => p.runs.map Run.lang)) :
    x = some "en-US" := by
  obtain ⟨p, hp, hx2⟩ := List.mem_flatMap.mp hx
  obtain ⟨q, _, rfl⟩ := List.mem_map.mp hp
  obtain ⟨r, hr, rfl⟩ := List.mem_map.mp hx2
  have hr2 : r ∈ q.runs.map tagRun := hr
  obtain ⟨r0, _, rfl⟩ := List.mem_map.mp hr2
  rfl

theorem taggedScopeLangs_apply_language (d : Document) :
    ∀ x ∈ taggedScopeLangs (apply_language_en_us d), x = some "en-US" := by
  intro x hx
  have hx2 : x ∈ (d.paragraphs.map tagPara).flatMap (fun p => p.runs.map Run.lang) ++
      (d.tables.map Tbl.tagTop).flatMap (fun t => t.rows.flatMap (fun row =>
        row.cells.flatMap (fun c => c.paragraphs.flatMap
          (fun p => p.runs.map Run.lang)))) := hx
  rcases List.mem_append.mp hx2 with hb | ht
  · exact mem_langs_map_tagPara hb
  · obtain ⟨t, ht1, hx3⟩ := List.mem_flatMap.mp ht
    obtain ⟨t0, _, rfl⟩ := List.mem_map.mp ht1
    rw [Tbl.rows_tagTop] at hx3
    obtain ⟨row, hrow, hx4⟩ := List.mem_flatMap.mp hx3
    obtain ⟨row0, _, rfl⟩ := List.mem_map.mp hrow
    rw [TblRow.cells_tagCells] at hx4
    obtain ⟨c, hc, hx5⟩ := List.mem_flatMap.mp hx4
    obtain ⟨c0, _, rfl⟩ := List.mem_map.mp hc
    rw [Cl.paragraphs_tagDirect] at hx5
    exact mem_langs_map_tagPara hx5

/-- C3 counterexample: after the full pipeline on dC3, the run inside
the table nested within a table cell still carries no language
attribute: apply_language_en_us only visits the direct paragraphs of
the cells of top-level tables and never recurses into nested tables, so
the claim fails for nested table content. -/
theorem C3_counterexample :
    nestedTableRunLangs (build_docx_pipeline dC3 1 false) = [none] := by
  decide

/-- C3 amended: after the full pipeline, every run in every body
paragraph and in every direct paragraph of every cell of every
top-level table carries the explicit language attribute en-US; runs
inside tables nested within table cells are excluded (they are not
visited by the tagger). -/
theorem C3_amended_pipeline_langs (d : Document) (s : Nat) (b : Bool) :
    ∀ x ∈ taggedScopeLangs (build_docx_pipeline d s b), x = some "en-US" := by
  intro x hx
  exact taggedScopeLangs_apply_language _ x hx

/-- Witness for the amended C3: applied at a concrete document and a
concrete member of the tagged scope after the pipeline. -/
theorem C3_witness : (some "en-US" : Option String) = some "en-US" :=
  C3_amended_pipeline_langs dW3 1 false (some "en-US") (by decide)

/-! ### Claim C4 -/

/-- C4 evaluated at the failing input (template file present): the
pandoc path receives the reference document, while the fallback path
builds from the built-in default template and never receives it, even
though the source comment (and the spec) say the fallback uses the
reference file as base when present. -/
theorem C4_template_usage :
    (build_docx_plan true).pandocReference = some "assets/reference.docx" ∧
      (build_docx_plan true).fallbackBase = none :=
  ⟨rfl, rfl⟩

/-! ### Claim C9 -/

/-- C9: a submission whose HTML body consists only of whitespace (or is
empty) is rejected with the validation error before the pipeline runs:
the outcome is the validation message and not a conversion, so
build_docx is never invoked and no document bytes are produced. -/
theorem C9_blank_html_rejected (title html_body : String) (s : Nat) (b : Bool)
    (hws : html_body.data.all pyIsSpace = true) :
    handle_submission title html_body s b =
      .validationError "HTML source is required. Please paste some HTML to convert." := by
  have hstrip : pyStrip html_body = "" := by
    unfold pyStrip
    have h1 : html_body.data.dropWhile pyIsSpace = [] :=
      List.dropWhile_eq_nil_iff.mpr (fun x hx => List.all_eq_true.mp hws x hx)
    rw [h1]
    rfl
  unfold handle_submission
  rw [if_pos (by simp [hstrip])]

/-- Witness for C9: a whitespace-only submission is rejected. -/
theorem C9_witness :
    handle_submission "My title" "  \n\t " 3 true =
      .validationError "HTML source is required. Please paste some HTML to convert." :=
  C9_blank_html_rejected "My title" "  \n\t " 3 true (by decide)
